import Mathlib

/-! Decker card UI: list reordering and the card factory.

A shallow embedding of the drag-and-drop reorder routine of `test_logic.js`
(`testInsertLogic`) and of `CardFactory` from `cards.js`.

JavaScript arrays are lists of JavaScript values.  A value is `Option α`:
`none` is `undefined`, `some a` is any other value.  Indices are integers,
since the routine does no range check and `Array.prototype.splice` gives a
meaning to negative and to oversized positions.
-/

namespace Decker

variable {α : Type}

/-! ## JavaScript array primitives -/

/-- Property read `arr[i]`: the element at `i`, and `undefined` when `i` is
negative or not below the length. -/
def jsIndex (arr : List (Option α)) (i : Int) : Option α :=
  if i < 0 then none else (arr.get? i.toNat).join

/-- Start normalisation of `Array.prototype.splice`: a negative start counts
from the end and stops at `0`, any other start stops at the length. -/
def actualStart (len : Nat) (start : Int) : Nat :=
  if start < 0 then (max ((len : Int) + start) 0).toNat else min start.toNat len

/-- Delete-count normalisation of `Array.prototype.splice`: between `0` and the
number of elements from the actual start to the end. -/
def actualDeleteCount (len : Nat) (start deleteCount : Int) : Nat :=
  min (max deleteCount 0).toNat (len - actualStart len start)

/-- `arr.splice(start, deleteCount, ...items)`: the array after the call. -/
def splice (arr : List (Option α)) (start deleteCount : Int)
    (items : List (Option α)) : List (Option α) :=
  let a := actualStart arr.length start
  let d := actualDeleteCount arr.length start deleteCount
  arr.take a ++ items ++ arr.drop (a + d)

/-! ## The reorder routine (`test_logic.js`, lines 13-25) -/

/-- Index computation of `testInsertLogic`: start from `targetIndex`, subtract
one when the dragged index is smaller, add one when inserting after. -/
def adjustedTargetIndex (draggedIndex targetIndex : Int) (insertAfter : Bool) : Int :=
  let adjustedTargetIndex := targetIndex
  let adjustedTargetIndex :=
    if draggedIndex < targetIndex then targetIndex - 1 else adjustedTargetIndex
  if insertAfter then adjustedTargetIndex + 1 else adjustedTargetIndex

/-- Body of `testInsertLogic` with the array, the two indices and the placement
flag as arguments: read the dragged element, splice it out, compute the
adjusted target index, splice it back in. -/
def testInsertLogic (arr1 : List (Option α)) (draggedIndex targetIndex : Int)
    (insertAfter : Bool) : List (Option α) :=
  let draggedProgram := jsIndex arr1 draggedIndex
  let arr1 := splice arr1 draggedIndex 1 []
  splice arr1 (adjustedTargetIndex draggedIndex targetIndex insertAfter) 0 [draggedProgram]

/-! ## The insert-before routine (`debug_insert.js`, lines 11-19) -/

/-- Body of test 1 of `debug_insert.js` with the array and the two indices as
arguments: read the dragged element, splice it out, and splice it back in at
`draggedIndex < targetIndex ? targetIndex - 1 : targetIndex`. -/
def debug_insert (testArray : List (Option α)) (draggedIndex targetIndex : Int) :
    List (Option α) :=
  let draggedProgram := jsIndex testArray draggedIndex
  let testArray := splice testArray draggedIndex 1 []
  let adjustedTargetIndex :=
    if draggedIndex < targetIndex then targetIndex - 1 else targetIndex
  splice testArray adjustedTargetIndex 0 [draggedProgram]

/-! ## CardFactory (`cards.js`, lines 303-351) -/

/-- A JavaScript object with string keys, or a `Map` keyed by strings: its
entries in insertion order.  Reads take the first entry of a key and writes
replace it in place, so an entry list with a repeated key behaves as the object
holding the first entry of each key. -/
abbrev JSObject (V : Type) := List (String × V)

/-- Property read `o[k]`, also `Map.prototype.get`: `none` when the key is
absent. -/
def JSObject.get {V : Type} : JSObject V → String → Option V
  | [], _ => none
  | (k', v) :: rest, k => if k' = k then some v else JSObject.get rest k

/-- Property write `o[k] = v`, also `Map.prototype.set`: an existing key keeps
its position, a new key goes to the end. -/
def JSObject.set {V : Type} : JSObject V → String → V → JSObject V
  | [], k, v => [(k, v)]
  | (k', v') :: rest, k, v =>
    if k' = k then (k, v) :: rest else (k', v') :: JSObject.set rest k v

/-- Membership test `Map.prototype.has`: whether some entry has the key. -/
def JSObject.has {V : Type} (o : JSObject V) (k : String) : Bool :=
  o.any (fun e => decide (e.1 = k))

/-- Own keys of an object, also `Map.prototype.keys`. -/
def JSObject.keys {V : Type} (o : JSObject V) : List String := o.map Prod.fst

/-- The steps of one `...source` in an object literal: for each own key of the
source, read its value from the source and write it to the target. -/
def copyDataProperties {V : Type} (target source : JSObject V) : JSObject V :=
  source.keys.foldl
    (fun acc k => match source.get k with
      | some v => acc.set k v
      | none => acc)
    target

/-- State of the `CardFactory` class: the static `Map` `registeredTypes` and
the static object `defaultOptions`, both keyed by the card type name.  The
value registered for a type is whatever `register` was given: `some cls` is a
card class, `none` is a falsy value such as `undefined` or `null`. -/
structure CardFactory (C V : Type) where
  registeredTypes : JSObject (Option C)
  defaultOptions : JSObject (JSObject V)

/-- The factory before any `register` call: `new Map()` and `{}`. -/
def CardFactory.empty {C V : Type} : CardFactory C V :=
  { registeredTypes := [], defaultOptions := [] }

/-- `CardFactory.register(type, cardClass, defaultOptions = {})`: the class
argument is stored unchecked, a falsy value included. -/
def CardFactory.register {C V : Type} (f : CardFactory C V) (type : String)
    (cardClass : Option C) (defaultOptions : Option (JSObject V)) : CardFactory C V :=
  { registeredTypes := f.registeredTypes.set type cardClass
    defaultOptions := f.defaultOptions.set type (defaultOptions.getD []) }

/-- A constructed card `new CardClass(data, options)`: its class and the two
constructor arguments. -/
structure Card (C Dat V : Type) where
  cardClass : C
  data : Dat
  options : JSObject V
deriving DecidableEq

/-- `CardFactory.create(type, data, options = {})`.  `Map.prototype.get` gives
`undefined` for an absent key, so `CardClass` is falsy both when the type is
absent and when a falsy value was registered for it; `if (!CardClass)` then
throws the `Error`, which carries its message.  Otherwise the result is the
card built from the class, the data and
`{ ...this.defaultOptions[type], ...options }`. -/
def CardFactory.create {C Dat V : Type} (f : CardFactory C V) (type : String) (data : Dat)
    (options : Option (JSObject V)) : Except String (Card C Dat V) :=
  let options := options.getD []
  let CardClass := (f.registeredTypes.get type).join
  match CardClass with
  | none =>
    .error ("Unknown card type: " ++ type ++ ". Available types: "
      ++ ", ".intercalate f.registeredTypes.keys)
  | some CardClass =>
    let mergedOptions :=
      copyDataProperties (copyDataProperties [] ((f.defaultOptions.get type).getD [])) options
    .ok { cardClass := CardClass, data := data, options := mergedOptions }

/-- `Array.prototype.map` with a callback that may throw: the callback runs on
the elements in order, the first exception leaves the call, and otherwise the
results come back in the order of the elements. -/
def arrayMap {A B E : Type} (callback : A → Except E B) : List A → Except E (List B)
  | [] => .ok []
  | a :: rest =>
    match callback a with
    | .error e => .error e
    | .ok b =>
      match arrayMap callback rest with
      | .error e => .error e
      | .ok bs => .ok (b :: bs)

/-- `CardFactory.createBatch(type, dataArray, options = {})`. -/
def CardFactory.createBatch {C Dat V : Type} (f : CardFactory C V) (type : String)
    (dataArray : List Dat) (options : Option (JSObject V)) :
    Except String (List (Card C Dat V)) :=
  let options := options.getD []
  arrayMap (fun data => f.create type data (some options)) dataArray

/-- `CardFactory.isRegistered(type)`. -/
def CardFactory.isRegistered {C V : Type} (f : CardFactory C V) (type : String) : Bool :=
  f.registeredTypes.has type

/-- The card classes defined in `cards.js`. -/
inductive CardClass where
  | HardwareCard
  | ProgramCard
  | ShopCard
  | ContractCard
  | CharacterStatCard
  | ProjectCard
deriving DecidableEq, Repr

/-- The six `CardFactory.register` calls at the end of `cards.js`
(lines 857-886), with boolean option values. -/
def registeredCards : CardFactory CardClass Bool :=
  (((((CardFactory.empty.register "hardware" (some CardClass.HardwareCard)
        (some [("animate", true), ("interactive", true)])).register
      "program" (some CardClass.ProgramCard)
        (some [("animate", true), ("interactive", true), ("draggable", true)])).register
      "shop" (some CardClass.ShopCard)
        (some [("animate", true), ("interactive", true)])).register
      "contract" (some CardClass.ContractCard)
        (some [("animate", true), ("interactive", true)])).register
      "character-stat" (some CardClass.CharacterStatCard)
        (some [("animate", true), ("interactive", false)])).register
      "project" (some CardClass.ProjectCard)
        (some [("animate", true), ("interactive", true)])

/-- The factory of `cards.js` after one more call,
`CardFactory.register('ghost', undefined, { animate: true })`. -/
def ghostRegistered : CardFactory CardClass Bool :=
  registeredCards.register "ghost" none (some [("animate", true)])

/-! ## Helper lemmas -/

theorem actualStart_natCast (len k : Nat) : actualStart len (k : Int) = min k len := by
  unfold actualStart
  have h : ¬ ((k : Int) < 0) := by omega
  simp [h]

theorem actualStart_natCast_succ (len k : Nat) :
    actualStart len ((k : Int) + 1) = min (k + 1) len := by
  have h := actualStart_natCast len (k + 1)
  push_cast at h
  exact h

theorem actualStart_of_nonneg (len : Nat) (a : Int) (h : 0 ≤ a) :
    actualStart len a = (min a (len : Int)).toNat := by
  obtain ⟨k, rfl⟩ := Int.eq_ofNat_of_zero_le h
  rw [actualStart_natCast]
  omega

theorem adjustedTargetIndex_nonneg (s t : Int) (b : Bool) (hs0 : 0 ≤ s) (ht0 : 0 ≤ t) :
    0 ≤ adjustedTargetIndex s t b := by
  simp only [adjustedTargetIndex]
  split <;> split <;> omega

theorem actualStart_le (len : Nat) (start : Int) : actualStart len start ≤ len := by
  unfold actualStart
  split <;> omega

theorem jsIndex_natCast (arr : List (Option α)) (k : Nat) :
    jsIndex arr (k : Int) = (arr.get? k).join := by
  unfold jsIndex
  have h : ¬ ((k : Int) < 0) := by omega
  simp [h]

theorem jsIndex_append_length (L R : List (Option α)) (x : Option α) :
    jsIndex (L ++ x :: R) (L.length : Int) = x := by
  rw [jsIndex_natCast]
  have h : (L ++ x :: R).get? L.length = some x := by
    rw [List.get?_eq_getElem?, List.getElem?_append_right (Nat.le_refl _)]
    simp
  rw [h]; rfl

theorem splice_insert (r : List (Option α)) (a : Int) (x : Option α) :
    splice r a 0 [x]
      = r.take (actualStart r.length a) ++ x :: r.drop (actualStart r.length a) := by
  simp [splice, actualDeleteCount]

theorem splice_remove_append (L R : List (Option α)) (x : Option α) :
    splice (L ++ x :: R) (L.length : Int) 1 [] = L ++ R := by
  have h1 : actualStart (L ++ x :: R).length (L.length : Int) = L.length := by
    rw [actualStart_natCast]; simp
  have h2 : actualDeleteCount (L ++ x :: R).length (L.length : Int) 1 = 1 := by
    unfold actualDeleteCount
    rw [h1]; simp
  simp only [splice, h1, h2]
  simp

/-- Normal form of the routine at a valid dragged index: the array is split
around the dragged element `x`, and `x` is put back into `L ++ R` at the
normalised adjusted index. -/
theorem testInsertLogic_append (L R : List (Option α)) (x : Option α) (t : Int) (b : Bool) :
    testInsertLogic (L ++ x :: R) (L.length : Int) t b
      = (L ++ R).take (actualStart (L ++ R).length (adjustedTargetIndex L.length t b))
        ++ x :: (L ++ R).drop
            (actualStart (L ++ R).length (adjustedTargetIndex L.length t b)) := by
  unfold testInsertLogic
  simp only [jsIndex_append_length, splice_remove_append, splice_insert]

/-- Every valid index splits the array around its element. -/
theorem exists_split_at (seq : List (Option α)) (s : Int) (h0 : 0 ≤ s)
    (hs : s < seq.length) :
    ∃ L x R, seq = L ++ x :: R ∧ s = (L.length : Int) := by
  obtain ⟨k, rfl⟩ := Int.eq_ofNat_of_zero_le h0
  have hk : k < seq.length := by exact_mod_cast hs
  refine ⟨seq.take k, seq[k], seq.drop (k + 1), ?_, ?_⟩
  · simp
  · simp [Nat.min_eq_left (Nat.le_of_lt hk)]

/-! ### Indexing into a list with one element inserted or removed -/

section ListIndex

variable {β : Type}

theorem getElem?_insert_self (r : List β) (x : β) (p : Nat) (hp : p ≤ r.length) :
    (r.take p ++ x :: r.drop p)[p]? = some x := by
  rw [List.getElem?_append_right (by simp [hp])]
  simp [Nat.min_eq_left hp]

theorem getElem?_insert_lt (r : List β) (x : β) (p j : Nat) (hj : j < p) (hp : p ≤ r.length) :
    (r.take p ++ x :: r.drop p)[j]? = r[j]? := by
  rw [List.getElem?_append_left (by simp; omega)]
  simp [List.getElem?_take, hj]

theorem getElem?_insert_succ (r : List β) (x : β) (p : Nat) (hp : p ≤ r.length) :
    (r.take p ++ x :: r.drop p)[p + 1]? = r[p]? := by
  rw [List.getElem?_append_right (by simp)]
  simp [Nat.min_eq_left hp]

theorem getElem?_removed_lt (L R : List β) (x : β) (j : Nat) (hj : j < L.length) :
    (L ++ R)[j]? = (L ++ x :: R)[j]? := by
  rw [List.getElem?_append_left hj, List.getElem?_append_left hj]

theorem getElem?_removed_ge (L R : List β) (x : β) (j : Nat) (hj : L.length ≤ j) :
    (L ++ R)[j]? = (L ++ x :: R)[j + 1]? := by
  rw [List.getElem?_append_right hj, List.getElem?_append_right (by omega)]
  have : j + 1 - L.length = (j - L.length) + 1 := by omega
  rw [this]; simp

theorem perm_insert_cons (r : List β) (x : β) (p : Nat) :
    (r.take p ++ x :: r.drop p).Perm (x :: r) := by
  have h : (r.take p ++ x :: r.drop p).Perm (x :: (r.take p ++ r.drop p)) := List.perm_middle
  rwa [List.take_append_drop] at h

theorem eraseIdx_insert (r : List β) (x : β) (p : Nat) (hp : p ≤ r.length) :
    (r.take p ++ x :: r.drop p).eraseIdx p = r := by
  rw [List.eraseIdx_append_of_length_le (by simp)]
  simp [Nat.min_eq_left hp]

theorem eraseIdx_append_length (L R : List β) (x : β) :
    (L ++ x :: R).eraseIdx L.length = L ++ R := by
  rw [List.eraseIdx_append_of_length_le (Nat.le_refl _)]
  simp

end ListIndex

theorem jsIndex_out_of_range (arr : List (Option α)) (i : Int)
    (h : i < 0 ∨ (arr.length : Int) ≤ i) : jsIndex arr i = none := by
  unfold jsIndex
  split
  · rfl
  · have hlen : arr.length ≤ i.toNat := by omega
    rw [List.get?_eq_none.mpr hlen]; rfl

theorem splice_remove_beyond (arr : List (Option α)) (s : Int)
    (h : (arr.length : Int) ≤ s) : splice arr s 1 [] = arr := by
  have h0 : 0 ≤ s := by omega
  have ha : actualStart arr.length s = arr.length := by
    rw [actualStart_of_nonneg _ _ h0]; omega
  simp [splice, actualDeleteCount, ha]

theorem adjustedTargetIndex_same (i : Int) (b : Bool) :
    adjustedTargetIndex i i b = if b then i + 1 else i := by
  simp [adjustedTargetIndex]

/-! ## The permutation invariant -/

/-- C1: for every array and every valid dragged and target index, with either
placement, the routine returns an array of the same length that is a
permutation of the input: nothing is duplicated and nothing is dropped. -/
theorem testInsertLogic_length_perm (seq : List (Option α)) (s t : Int) (b : Bool)
    (hs0 : 0 ≤ s) (hs : s < seq.length) (_ht0 : 0 ≤ t) (_ht : t < seq.length) :
    (testInsertLogic seq s t b).length = seq.length
      ∧ (testInsertLogic seq s t b).Perm seq := by
  obtain ⟨L, x, R, rfl, rfl⟩ := exists_split_at seq s hs0 hs
  rw [testInsertLogic_append]
  generalize hp : actualStart (L ++ R).length (adjustedTargetIndex L.length t b) = p
  have hle : p ≤ (L ++ R).length := hp ▸ actualStart_le _ _
  constructor
  · simp only [List.length_append, List.length_cons, List.length_take, List.length_drop] at hle ⊢
    omega
  · exact (perm_insert_cons (L ++ R) x p).trans List.perm_middle.symm

theorem testInsertLogic_length_perm_witness :
    (testInsertLogic [some 'A', some 'B', some 'C'] 0 2 true).length
        = [some 'A', some 'B', some 'C'].length
      ∧ (testInsertLogic [some 'A', some 'B', some 'C'] 0 2 true).Perm
        [some 'A', some 'B', some 'C'] :=
  testInsertLogic_length_perm [some 'A', some 'B', some 'C'] 0 2 true
    (by decide) (by decide) (by decide) (by decide)

/-! ## Same index -/

/-- C2 as stated fails: dragging index 0 of a two-element array onto itself
with placement after exchanges the two elements. -/
theorem testInsertLogic_same_index_after_counterexample :
    testInsertLogic [some 'A', some 'B'] 0 0 true = [some 'B', some 'A']
      ∧ testInsertLogic [some 'A', some 'B'] 0 0 true ≠ [some 'A', some 'B'] := by
  decide

/-- C2 amended: with equal valid indices, placement before returns the array
unchanged; placement after returns it unchanged when the index is the last
one, and otherwise returns the array with the elements at `i` and `i + 1`
exchanged. -/
theorem testInsertLogic_same_index (seq : List (Option α)) (i : Int)
    (hi0 : 0 ≤ i) (hi : i < seq.length) :
    testInsertLogic seq i i false = seq
      ∧ (i + 1 = seq.length → testInsertLogic seq i i true = seq)
      ∧ (i + 1 < seq.length → testInsertLogic seq i i true
          = seq.take i.toNat ++ jsIndex seq (i + 1) :: jsIndex seq i
              :: seq.drop (i.toNat + 2)) := by
  obtain ⟨L, x, R, rfl, rfl⟩ := exists_split_at seq i hi0 hi
  simp only [testInsertLogic_append, adjustedTargetIndex_same, if_true, if_false,
    Bool.false_eq_true, actualStart_natCast, actualStart_natCast_succ]
  refine ⟨?_, ?_, ?_⟩
  · simp
  · intro h
    have hR : R = [] := by
      apply List.eq_nil_of_length_eq_zero
      simp only [List.length_append, List.length_cons] at h
      omega
    subst hR
    simp
  · intro h
    cases R with
    | nil => simp at h
    | cons y R' =>
      have h2 : jsIndex (L ++ x :: y :: R') ((L.length : Int) + 1) = y := by
        have := jsIndex_append_length (L ++ [x]) R' y
        simpa using this
      rw [h2, jsIndex_append_length]
      have e1 : L.take (L.length + 1) = L := List.take_of_length_le (by omega)
      have e2 : L.drop (L.length + 1) = [] := List.drop_eq_nil_of_le (by omega)
      have e3 : L.drop (L.length + 2) = [] := List.drop_eq_nil_of_le (by omega)
      simp [List.take_append_eq_append_take, List.drop_append_eq_append_drop, e1, e2, e3]

theorem testInsertLogic_same_index_witness :
    testInsertLogic [some 'A', some 'B', some 'C'] 1 1 false
        = [some 'A', some 'B', some 'C']
      ∧ testInsertLogic [some 'A', some 'B', some 'C'] 2 2 true
        = [some 'A', some 'B', some 'C']
      ∧ testInsertLogic [some 'A', some 'B', some 'C'] 1 1 true
        = [some 'A', some 'B', some 'C'].take (1 : Int).toNat
            ++ jsIndex [some 'A', some 'B', some 'C'] (1 + 1)
              :: jsIndex [some 'A', some 'B', some 'C'] 1
              :: [some 'A', some 'B', some 'C'].drop ((1 : Int).toNat + 2) :=
  ⟨(testInsertLogic_same_index [some 'A', some 'B', some 'C'] 1 (by decide) (by decide)).1,
   (testInsertLogic_same_index [some 'A', some 'B', some 'C'] 2 (by decide) (by decide)).2.1
      (by decide),
   (testInsertLogic_same_index [some 'A', some 'B', some 'C'] 1 (by decide) (by decide)).2.2
      (by decide)⟩

/-! ## Placement before and after the target -/

/-- C3: placement before, distinct valid indices: with `p = t - 1` when `s < t`
and `p = t` when `s > t`, the result holds the dragged element at `p` and the
target element at `p + 1`. -/
theorem testInsertLogic_before (seq : List (Option α)) (s t : Int)
    (hs0 : 0 ≤ s) (hs : s < seq.length) (ht0 : 0 ≤ t) (ht : t < seq.length)
    (hne : s ≠ t) :
    (testInsertLogic seq s t false)[(if s < t then t - 1 else t).toNat]? = seq[s.toNat]?
      ∧ (testInsertLogic seq s t false)[((if s < t then t - 1 else t) + 1).toNat]?
          = seq[t.toNat]? := by
  obtain ⟨L, x, R, rfl, rfl⟩ := exists_split_at seq s hs0 hs
  obtain ⟨k, rfl⟩ := Int.eq_ofNat_of_zero_le ht0
  have hk : k < L.length + R.length + 1 := by
    simp only [List.length_append, List.length_cons] at ht
    omega
  have hkL : k ≠ L.length := fun h => hne (by simp [h])
  have hx : (L ++ x :: R)[L.length]? = some x := by
    rw [List.getElem?_append_right (Nat.le_refl _)]; simp
  rw [testInsertLogic_append]
  simp only [Int.toNat_ofNat, hx]
  by_cases hlt : L.length < k
  · have hlt' : (L.length : Int) < (k : Int) := by exact_mod_cast hlt
    obtain ⟨j, rfl⟩ : ∃ j, k = j + 1 := ⟨k - 1, by omega⟩
    have hadj : adjustedTargetIndex (L.length : Int) ((j + 1 : Nat) : Int) false = (j : Int) := by
      simp only [adjustedTargetIndex, hlt', if_true, Bool.false_eq_true, if_false]
      push_cast; ring
    have hp : actualStart (L ++ R).length (j : Int) = j := by
      rw [actualStart_natCast]; simp; omega
    have hi1 : (if (L.length : Int) < ((j + 1 : Nat) : Int) then ((j + 1 : Nat) : Int) - 1
        else ((j + 1 : Nat) : Int)).toNat = j := by
      rw [if_pos hlt']; push_cast; simp
    have hi2 : ((if (L.length : Int) < ((j + 1 : Nat) : Int) then ((j + 1 : Nat) : Int) - 1
        else ((j + 1 : Nat) : Int)) + 1).toNat = j + 1 := by
      rw [if_pos hlt']; push_cast; simp
    have hjr : j ≤ (L ++ R).length := by simp; omega
    rw [hadj, hp, hi1, hi2]
    refine ⟨getElem?_insert_self _ _ _ hjr, ?_⟩
    rw [getElem?_insert_succ _ _ _ hjr]
    exact getElem?_removed_ge L R x j (by omega)
  · have hlt' : ¬ (L.length : Int) < (k : Int) := by exact_mod_cast hlt
    have hkl : k < L.length := by omega
    have hadj : adjustedTargetIndex (L.length : Int) (k : Int) false = (k : Int) := by
      simp only [adjustedTargetIndex, hlt', if_false, Bool.false_eq_true]
    have hp : actualStart (L ++ R).length (k : Int) = k := by
      rw [actualStart_natCast]; simp; omega
    have hi1 : (if (L.length : Int) < (k : Int) then (k : Int) - 1 else (k : Int)).toNat = k := by
      rw [if_neg hlt']; simp
    have hi2 : ((if (L.length : Int) < (k : Int) then (k : Int) - 1 else (k : Int)) + 1).toNat
        = k + 1 := by
      rw [if_neg hlt']; omega
    have hkr : k ≤ (L ++ R).length := by simp; omega
    rw [hadj, hp, hi1, hi2]
    refine ⟨getElem?_insert_self _ _ _ hkr, ?_⟩
    rw [getElem?_insert_succ _ _ _ hkr]
    exact getElem?_removed_lt L R x k hkl

theorem testInsertLogic_before_witness :
    (testInsertLogic [some 'A', some 'B', some 'C', some 'D', some 'E'] 0 3 false)[
        (if (0 : Int) < 3 then (3 : Int) - 1 else 3).toNat]?
        = [some 'A', some 'B', some 'C', some 'D', some 'E'][(0 : Int).toNat]?
      ∧ (testInsertLogic [some 'A', some 'B', some 'C', some 'D', some 'E'] 0 3 false)[
          ((if (0 : Int) < 3 then (3 : Int) - 1 else 3) + 1).toNat]?
          = [some 'A', some 'B', some 'C', some 'D', some 'E'][(3 : Int).toNat]? :=
  testInsertLogic_before [some 'A', some 'B', some 'C', some 'D', some 'E'] 0 3
    (by decide) (by decide) (by decide) (by decide) (by decide)

/-- C4: placement after, distinct valid indices: with `q = t - 1` when `s < t`
and `q = t` when `s > t`, the result holds the target element at `q` and the
dragged element at `q + 1`. -/
theorem testInsertLogic_after (seq : List (Option α)) (s t : Int)
    (hs0 : 0 ≤ s) (hs : s < seq.length) (ht0 : 0 ≤ t) (ht : t < seq.length)
    (hne : s ≠ t) :
    (testInsertLogic seq s t true)[(if s < t then t - 1 else t).toNat]? = seq[t.toNat]?
      ∧ (testInsertLogic seq s t true)[((if s < t then t - 1 else t) + 1).toNat]?
          = seq[s.toNat]? := by
  obtain ⟨L, x, R, rfl, rfl⟩ := exists_split_at seq s hs0 hs
  obtain ⟨k, rfl⟩ := Int.eq_ofNat_of_zero_le ht0
  have hk : k < L.length + R.length + 1 := by
    simp only [List.length_append, List.length_cons] at ht
    omega
  have hkL : k ≠ L.length := fun h => hne (by simp [h])
  have hx : (L ++ x :: R)[L.length]? = some x := by
    rw [List.getElem?_append_right (Nat.le_refl _)]; simp
  rw [testInsertLogic_append]
  simp only [Int.toNat_ofNat, hx]
  by_cases hlt : L.length < k
  · have hlt' : (L.length : Int) < (k : Int) := by exact_mod_cast hlt
    obtain ⟨j, rfl⟩ : ∃ j, k = j + 1 := ⟨k - 1, by omega⟩
    have hadj : adjustedTargetIndex (L.length : Int) ((j + 1 : Nat) : Int) true
        = ((j + 1 : Nat) : Int) := by
      simp only [adjustedTargetIndex, hlt', if_true]
      ring
    have hp : actualStart (L ++ R).length ((j + 1 : Nat) : Int) = j + 1 := by
      rw [actualStart_natCast]; simp; omega
    have hi1 : (if (L.length : Int) < ((j + 1 : Nat) : Int) then ((j + 1 : Nat) : Int) - 1
        else ((j + 1 : Nat) : Int)).toNat = j := by
      rw [if_pos hlt']; push_cast; simp
    have hi2 : ((if (L.length : Int) < ((j + 1 : Nat) : Int) then ((j + 1 : Nat) : Int) - 1
        else ((j + 1 : Nat) : Int)) + 1).toNat = j + 1 := by
      rw [if_pos hlt']; push_cast; simp
    have hjr : j + 1 ≤ (L ++ R).length := by simp; omega
    rw [hadj, hp, hi1, hi2]
    refine ⟨?_, getElem?_insert_self _ _ _ hjr⟩
    rw [getElem?_insert_lt _ _ _ j (Nat.lt_succ_self j) hjr]
    exact getElem?_removed_ge L R x j (by omega)
  · have hlt' : ¬ (L.length : Int) < (k : Int) := by exact_mod_cast hlt
    have hkl : k < L.length := by omega
    have hadj : adjustedTargetIndex (L.length : Int) (k : Int) true = ((k + 1 : Nat) : Int) := by
      simp only [adjustedTargetIndex, hlt', if_false, if_true]
      push_cast; ring
    have hp : actualStart (L ++ R).length ((k + 1 : Nat) : Int) = k + 1 := by
      rw [actualStart_natCast]; simp; omega
    have hi1 : (if (L.length : Int) < (k : Int) then (k : Int) - 1 else (k : Int)).toNat = k := by
      rw [if_neg hlt']; simp
    have hi2 : ((if (L.length : Int) < (k : Int) then (k : Int) - 1 else (k : Int)) + 1).toNat
        = k + 1 := by
      rw [if_neg hlt']; omega
    have hkr : k + 1 ≤ (L ++ R).length := by simp; omega
    rw [hadj, hp, hi1, hi2]
    refine ⟨?_, getElem?_insert_self _ _ _ hkr⟩
    rw [getElem?_insert_lt _ _ _ k (Nat.lt_succ_self k) hkr]
    exact getElem?_removed_lt L R x k hkl

theorem testInsertLogic_after_witness :
    (testInsertLogic [some 'A', some 'B', some 'C', some 'D', some 'E'] 0 2 true)[
        (if (0 : Int) < 2 then (2 : Int) - 1 else 2).toNat]?
        = [some 'A', some 'B', some 'C', some 'D', some 'E'][(2 : Int).toNat]?
      ∧ (testInsertLogic [some 'A', some 'B', some 'C', some 'D', some 'E'] 0 2 true)[
          ((if (0 : Int) < 2 then (2 : Int) - 1 else 2) + 1).toNat]?
          = [some 'A', some 'B', some 'C', some 'D', some 'E'][(0 : Int).toNat]? :=
  testInsertLogic_after [some 'A', some 'B', some 'C', some 'D', some 'E'] 0 2
    (by decide) (by decide) (by decide) (by decide) (by decide)

/-! ## Order of the other elements -/

/-- C5: for valid indices and either placement, the dragged element ends at
index `min adjusted (length - 1)`, and deleting it there from the result gives
the input with index `s` deleted: the other elements keep their order. -/
theorem testInsertLogic_others_order (seq : List (Option α)) (s t : Int) (b : Bool)
    (hs0 : 0 ≤ s) (hs : s < seq.length) (ht0 : 0 ≤ t) (_ht : t < seq.length) :
    (testInsertLogic seq s t b)[
        (min (adjustedTargetIndex s t b) ((seq.length : Int) - 1)).toNat]? = seq[s.toNat]?
      ∧ (testInsertLogic seq s t b).eraseIdx
          (min (adjustedTargetIndex s t b) ((seq.length : Int) - 1)).toNat
          = seq.eraseIdx s.toNat := by
  obtain ⟨L, x, R, rfl, rfl⟩ := exists_split_at seq s hs0 hs
  have hx : (L ++ x :: R)[L.length]? = some x := by
    rw [List.getElem?_append_right (Nat.le_refl _)]; simp
  have hadj := adjustedTargetIndex_nonneg (L.length : Int) t b hs0 ht0
  have hlen : (((L ++ x :: R).length : Nat) : Int) - 1 = (((L ++ R).length : Nat) : Int) := by
    simp only [List.length_append, List.length_cons]; push_cast; ring
  rw [testInsertLogic_append, hlen, ← actualStart_of_nonneg _ _ hadj]
  simp only [Int.toNat_ofNat, hx, eraseIdx_append_length]
  exact ⟨getElem?_insert_self _ _ _ (actualStart_le _ _), eraseIdx_insert _ _ _ (actualStart_le _ _)⟩

theorem testInsertLogic_others_order_witness :
    (testInsertLogic [some 'A', some 'B', some 'C'] 2 2 true)[
        (min (adjustedTargetIndex 2 2 true)
          (([some 'A', some 'B', some 'C'].length : Int) - 1)).toNat]?
        = [some 'A', some 'B', some 'C'][(2 : Int).toNat]?
      ∧ (testInsertLogic [some 'A', some 'B', some 'C'] 2 2 true).eraseIdx
          (min (adjustedTargetIndex 2 2 true)
            (([some 'A', some 'B', some 'C'].length : Int) - 1)).toNat
          = [some 'A', some 'B', some 'C'].eraseIdx (2 : Int).toNat :=
  testInsertLogic_others_order [some 'A', some 'B', some 'C'] 2 2 true
    (by decide) (by decide) (by decide) (by decide)

/-! ## Adjacent targets, front, single element -/

/-- C6: dragging index `i` before index `i + 1`, or after index `i - 1`, returns
the array unchanged. -/
theorem testInsertLogic_adjacent (seq : List (Option α)) (i : Int) :
    (0 ≤ i → i + 1 < seq.length → testInsertLogic seq i (i + 1) false = seq)
      ∧ (1 ≤ i → i < seq.length → testInsertLogic seq i (i - 1) true = seq) := by
  constructor
  · intro h0 h1
    obtain ⟨L, x, R, rfl, rfl⟩ := exists_split_at seq i h0 (by omega)
    have hadj : adjustedTargetIndex (L.length : Int) ((L.length : Int) + 1) false
        = (L.length : Int) := by
      simp [adjustedTargetIndex]
    rw [testInsertLogic_append, hadj, actualStart_natCast]
    simp
  · intro h0 h1
    obtain ⟨L, x, R, rfl, rfl⟩ := exists_split_at seq i (by omega) h1
    have hadj : adjustedTargetIndex (L.length : Int) ((L.length : Int) - 1) true
        = (L.length : Int) := by
      have hlt : ¬ ((L.length : Int) < (L.length : Int) - 1) := by omega
      simp [adjustedTargetIndex, hlt]
    rw [testInsertLogic_append, hadj, actualStart_natCast]
    simp

theorem testInsertLogic_adjacent_witness :
    testInsertLogic [some 'A', some 'B', some 'C'] 1 (1 + 1) false
        = [some 'A', some 'B', some 'C']
      ∧ testInsertLogic [some 'A', some 'B', some 'C'] 1 (1 - 1) true
        = [some 'A', some 'B', some 'C'] :=
  ⟨(testInsertLogic_adjacent [some 'A', some 'B', some 'C'] 1).1 (by decide) (by decide),
   (testInsertLogic_adjacent [some 'A', some 'B', some 'C'] 1).2 (by decide) (by decide)⟩

/-! ## Indices out of range -/

/-- C7 as stated fails: no index is rejected.  A dragged index at or beyond the
length inserts `undefined` and removes nothing, a negative dragged index
removes an element counted from the end and inserts `undefined`, and a
target index beyond the length is cut back to the end. -/
theorem testInsertLogic_out_of_range_counterexample :
    testInsertLogic [some 'A', some 'B', some 'C'] 5 0 false
        = [none, some 'A', some 'B', some 'C']
      ∧ testInsertLogic [some 'A', some 'B', some 'C'] (-1) 0 false
        = [some 'A', none, some 'B']
      ∧ testInsertLogic [some 'A', some 'B', some 'C'] 0 7 false
        = [some 'B', some 'C', some 'A'] := by
  decide

/-- C7 amended: with an index out of range the routine still returns an array.
When the dragged index is out of range the inserted value is `undefined`, and
when it is at or beyond the length nothing is removed, so the result is one
element longer.  When the dragged index is valid the result is a permutation
of the input, the insertion position being cut back by `splice`; a target
index at or beyond the length moves the dragged element to the end. -/
theorem testInsertLogic_out_of_range (seq : List (Option α)) (s t : Int) (b : Bool)
    (_hout : s < 0 ∨ (seq.length : Int) ≤ s ∨ t < 0 ∨ (seq.length : Int) ≤ t) :
    ((s < 0 ∨ (seq.length : Int) ≤ s) → none ∈ testInsertLogic seq s t b)
      ∧ ((seq.length : Int) ≤ s → (testInsertLogic seq s t b).length = seq.length + 1)
      ∧ (0 ≤ s → s < seq.length →
          (testInsertLogic seq s t b).Perm seq
            ∧ ((seq.length : Int) ≤ t →
                testInsertLogic seq s t b = seq.eraseIdx s.toNat ++ [jsIndex seq s])) := by
  refine ⟨?_, ?_, ?_⟩
  · intro h
    unfold testInsertLogic
    simp only [jsIndex_out_of_range seq s h, splice_insert]
    simp
  · intro h
    unfold testInsertLogic
    simp only [splice_remove_beyond seq s h, splice_insert]
    have hle := actualStart_le seq.length (adjustedTargetIndex s t b)
    simp only [List.length_append, List.length_cons, List.length_take, List.length_drop]
    omega
  · intro hs0 hs
    obtain ⟨L, x, R, rfl, rfl⟩ := exists_split_at seq s hs0 hs
    refine ⟨?_, ?_⟩
    · rw [testInsertLogic_append]
      exact (perm_insert_cons (L ++ R) x _).trans List.perm_middle.symm
    intro ht
    have hlen : (((L ++ x :: R).length : Nat) : Int) = (((L ++ R).length : Nat) : Int) + 1 := by
      simp only [List.length_append, List.length_cons]; push_cast; ring
    have hadj : (((L ++ R).length : Nat) : Int) ≤ adjustedTargetIndex (L.length : Int) t b := by
      simp only [adjustedTargetIndex]
      split <;> split <;> omega
    have hp : actualStart (L ++ R).length (adjustedTargetIndex (L.length : Int) t b)
        = (L ++ R).length := by
      rw [actualStart_of_nonneg _ _ (by omega)]; omega
    rw [testInsertLogic_append, hp, jsIndex_append_length, List.take_length, List.drop_length]
    simp only [Int.toNat_ofNat, eraseIdx_append_length]

theorem testInsertLogic_out_of_range_witness :
    none ∈ testInsertLogic [some 'A', some 'B', some 'C'] (-1) 0 false
      ∧ (testInsertLogic [some 'A', some 'B', some 'C'] 5 0 false).length
          = [some 'A', some 'B', some 'C'].length + 1
      ∧ (testInsertLogic [some 'A', some 'B', some 'C'] 0 7 false).Perm
          [some 'A', some 'B', some 'C']
      ∧ testInsertLogic [some 'A', some 'B', some 'C'] 0 7 false
          = [some 'A', some 'B', some 'C'].eraseIdx (0 : Int).toNat
              ++ [jsIndex [some 'A', some 'B', some 'C'] 0] :=
  ⟨(testInsertLogic_out_of_range [some 'A', some 'B', some 'C'] (-1) 0 false (by decide)).1
      (by decide),
   (testInsertLogic_out_of_range [some 'A', some 'B', some 'C'] 5 0 false (by decide)).2.1
      (by decide),
   ((testInsertLogic_out_of_range [some 'A', some 'B', some 'C'] 0 7 false (by decide)).2.2
      (by decide) (by decide)).1,
   ((testInsertLogic_out_of_range [some 'A', some 'B', some 'C'] 0 7 false (by decide)).2.2
      (by decide) (by decide)).2 (by decide)⟩

/-- C8: dragging a valid index `s` of a non-empty array before index `0` gives
the dragged element followed by the array with index `s` removed. -/
theorem testInsertLogic_to_front (seq : List (Option α)) (s : Int)
    (_hne : seq ≠ []) (hs0 : 0 ≤ s) (hs : s < seq.length) :
    testInsertLogic seq s 0 false = jsIndex seq s :: seq.eraseIdx s.toNat := by
  obtain ⟨L, x, R, rfl, rfl⟩ := exists_split_at seq s hs0 hs
  have hlt : ¬ ((L.length : Int) < 0) := by omega
  have hadj : adjustedTargetIndex (L.length : Int) 0 false = ((0 : Nat) : Int) := by
    simp [adjustedTargetIndex, hlt]
  rw [testInsertLogic_append, hadj, actualStart_natCast, jsIndex_append_length]
  simp only [Int.toNat_ofNat, eraseIdx_append_length]
  simp

theorem testInsertLogic_to_front_witness :
    testInsertLogic [some 'A', some 'B', some 'C', some 'D', some 'E'] 2 0 false
      = jsIndex [some 'A', some 'B', some 'C', some 'D', some 'E'] 2
        :: [some 'A', some 'B', some 'C', some 'D', some 'E'].eraseIdx (2 : Int).toNat :=
  testInsertLogic_to_front [some 'A', some 'B', some 'C', some 'D', some 'E'] 2
    (by decide) (by decide) (by decide)

/-- C9: on a one-element array, dragging index `0` onto index `0` returns the
array unchanged with either placement; with placement after, the insertion
index `1` is cut back by `splice` to the length `0` of the reduced array. -/
theorem testInsertLogic_single (a : Option α) :
    testInsertLogic [a] 0 0 false = [a] ∧ testInsertLogic [a] 0 0 true = [a]
      ∧ adjustedTargetIndex 0 0 true = 1 ∧ actualStart 0 1 = 0 := by
  refine ⟨?_, ?_, by decide, by decide⟩
  · have h := testInsertLogic_append [] [] a 0 false
    simpa [adjustedTargetIndex, actualStart] using h
  · have h := testInsertLogic_append [] [] a 0 true
    simpa [adjustedTargetIndex, actualStart] using h

/-! ## CardFactory: merged options -/

theorem JSObject.get_set_self {V : Type} (o : JSObject V) (k : String) (v : V) :
    (o.set k v).get k = some v := by
  induction o with
  | nil => simp [JSObject.set, JSObject.get]
  | cons e rest ih =>
    obtain ⟨k', v'⟩ := e
    by_cases h : k' = k
    · simp [JSObject.set, JSObject.get, h]
    · simp [JSObject.set, JSObject.get, h, ih]

theorem JSObject.get_set_ne {V : Type} (o : JSObject V) (k j : String) (v : V) (h : k ≠ j) :
    (o.set k v).get j = o.get j := by
  induction o with
  | nil => simp [JSObject.set, JSObject.get, h]
  | cons e rest ih =>
    obtain ⟨k', v'⟩ := e
    by_cases h' : k' = k
    · subst h'
      simp [JSObject.set, JSObject.get, h]
    · by_cases h'' : k' = j
      · subst h''
        simp [JSObject.set, JSObject.get, h']
      · simp [JSObject.set, JSObject.get, h', h'', ih]

theorem JSObject.get_eq_none_of_not_mem_keys {V : Type} (o : JSObject V) (k : String)
    (h : k ∉ o.keys) : o.get k = none := by
  induction o with
  | nil => rfl
  | cons e rest ih =>
    obtain ⟨k', v'⟩ := e
    simp only [JSObject.keys, List.map_cons, List.mem_cons, not_or] at h
    have hne : ¬ k' = k := fun e => h.1 e.symm
    simp only [JSObject.get, hne, if_false]
    exact ih h.2

theorem JSObject.get_isSome_of_mem_keys {V : Type} (o : JSObject V) (k : String)
    (h : k ∈ o.keys) : (o.get k).isSome := by
  induction o with
  | nil => simp [JSObject.keys] at h
  | cons e rest ih =>
    obtain ⟨k', v'⟩ := e
    by_cases hk : k' = k
    · simp [JSObject.get, hk]
    · simp only [JSObject.keys, List.map_cons, List.mem_cons] at h
      simp only [JSObject.get, hk, if_false]
      exact ih (h.resolve_left (fun e => hk e.symm))

/-- Reading a key after copying the listed keys of `source` onto `target`. -/
theorem get_foldl_copy {V : Type} (source : JSObject V) (ks : List String) :
    ∀ (target : JSObject V) (j : String),
      (ks.foldl (fun acc k => match source.get k with
          | some v => acc.set k v
          | none => acc) target).get j
        = if j ∈ ks ∧ (source.get j).isSome then source.get j else target.get j := by
  induction ks with
  | nil => intro target j; simp
  | cons k rest ih =>
    intro target j
    rw [List.foldl_cons, ih]
    by_cases hj : j ∈ rest ∧ (source.get j).isSome
    · have hj' : j ∈ k :: rest ∧ (source.get j).isSome := ⟨List.mem_cons_of_mem _ hj.1, hj.2⟩
      rw [if_pos hj, if_pos hj']
    · rw [if_neg hj]
      by_cases hk : k = j
      · subst hk
        cases hs : source.get k with
        | none => simp [hs]
        | some v => simp [hs, JSObject.get_set_self]
      · have hmem : (j ∈ k :: rest ∧ (source.get j).isSome) ↔
            (j ∈ rest ∧ (source.get j).isSome) := by
          simp only [List.mem_cons]
          constructor
          · rintro ⟨h1 | h1, h2⟩
            · exact absurd h1.symm hk
            · exact ⟨h1, h2⟩
          · rintro ⟨h1, h2⟩
            exact ⟨Or.inr h1, h2⟩
        rw [if_neg (fun h => hj (hmem.mp h))]
        cases hs : source.get k with
        | none => rfl
        | some v => exact JSObject.get_set_ne _ _ _ _ hk

/-- Reading a key of `{ ...target, ...source }`: the source wins where it has
the key. -/
theorem get_copyDataProperties {V : Type} (target source : JSObject V) (j : String) :
    (copyDataProperties target source).get j
      = match source.get j with
        | some v => some v
        | none => target.get j := by
  unfold copyDataProperties
  rw [get_foldl_copy]
  by_cases hj : j ∈ source.keys
  · have hs := JSObject.get_isSome_of_mem_keys source j hj
    rw [if_pos ⟨hj, hs⟩]
    cases h : source.get j with
    | none => rw [h] at hs; simp at hs
    | some v => rfl
  · rw [if_neg (fun h => hj h.1), JSObject.get_eq_none_of_not_mem_keys source j hj]

/-- After `register(type, cardClass, defaults)` the type has that class and
those defaults. -/
theorem CardFactory.register_get {C V : Type} (f : CardFactory C V) (type : String)
    (cardClass : Option C) (defaults : JSObject V) :
    (f.register type cardClass (some defaults)).registeredTypes.get type = some cardClass
      ∧ (f.register type cardClass (some defaults)).defaultOptions.get type = some defaults :=
  ⟨JSObject.get_set_self _ _ _, JSObject.get_set_self _ _ _⟩

/-- C10: for a type registered with class `cls` and defaults `D`, `create`
returns the card `new cls(data, M)` where `M` has, for every key, the value of
`O` when `O` has the key and otherwise what `D` has for it (nothing when `D`
lacks it too).  `create` returns only the card: the factory state, and with it
`D`, is not written, and `O` is only read. -/
theorem CardFactory.create_merges_options {C Dat V : Type} (f : CardFactory C V)
    (type : String) (cls : C) (D O : JSObject V) (data : Dat)
    (hC : f.registeredTypes.get type = some (some cls))
    (hD : f.defaultOptions.get type = some D) :
    ∃ M : JSObject V,
      f.create type data (some O) = .ok { cardClass := cls, data := data, options := M }
        ∧ (∀ k v, O.get k = some v → M.get k = some v)
        ∧ (∀ k, O.get k = none → M.get k = D.get k) := by
  refine ⟨copyDataProperties (copyDataProperties [] D) O, ?_, ?_, ?_⟩
  · simp [CardFactory.create, hC, hD]
  · intro k v hk
    rw [get_copyDataProperties, hk]
  · intro k hk
    rw [get_copyDataProperties, hk]
    simp only
    rw [get_copyDataProperties]
    cases D.get k <;> rfl

theorem CardFactory.create_merges_options_witness :
    ∃ M : JSObject Bool,
      registeredCards.create "program" (7 : Nat) (some [("draggable", false), ("disabled", true)])
          = .ok { cardClass := CardClass.ProgramCard, data := 7, options := M }
        ∧ (∀ k v, JSObject.get [("draggable", false), ("disabled", true)] k = some v →
            M.get k = some v)
        ∧ (∀ k, JSObject.get [("draggable", false), ("disabled", true)] k = none →
            M.get k
              = JSObject.get [("animate", true), ("interactive", true), ("draggable", true)] k) :=
  CardFactory.create_merges_options registeredCards "program" CardClass.ProgramCard
    [("animate", true), ("interactive", true), ("draggable", true)]
    [("draggable", false), ("disabled", true)] 7 (by decide) (by decide)

/-! ## CardFactory: unknown types -/

/-- `has` answers whether `get` finds a value. -/
theorem JSObject.has_eq_isSome_get {V : Type} (o : JSObject V) (k : String) :
    o.has k = (o.get k).isSome := by
  induction o with
  | nil => rfl
  | cons e rest ih =>
    obtain ⟨k', v'⟩ := e
    by_cases h : k' = k
    · simp [JSObject.has, JSObject.get, h]
    · have ih' : rest.any (fun e => decide (e.1 = k)) = (JSObject.get rest k).isSome := ih
      simp [JSObject.has, JSObject.get, h, ih']

/-- On a type whose registered value is a card class, `create` builds the card
of that class with the merged options. -/
theorem CardFactory.create_of_class {C Dat V : Type} (f : CardFactory C V) (type : String)
    (cls : C) (data : Dat) (options : Option (JSObject V))
    (hC : f.registeredTypes.get type = some (some cls)) :
    f.create type data options
      = .ok { cardClass := cls, data := data, options :=
          (copyDataProperties (copyDataProperties [] ((f.defaultOptions.get type).getD []))
            (options.getD [])) } := by
  simp [CardFactory.create, hC]

/-- On a type that `isRegistered` rejects, `create` throws the unknown-type
`Error` and builds no card. -/
theorem CardFactory.create_of_not_registered {C Dat V : Type} (f : CardFactory C V)
    (type : String) (data : Dat) (options : Option (JSObject V))
    (h : f.isRegistered type = false) :
    f.create type data options
      = .error ("Unknown card type: " ++ type ++ ". Available types: "
          ++ ", ".intercalate f.registeredTypes.keys) := by
  unfold CardFactory.isRegistered at h
  rw [JSObject.has_eq_isSome_get] at h
  cases hg : f.registeredTypes.get type with
  | none => simp [CardFactory.create, hg]
  | some v => simp [hg] at h

/-- On a type registered with a falsy value, `isRegistered` answers `true` and
`create` throws the same unknown-type `Error`. -/
theorem CardFactory.create_of_falsy {C Dat V : Type} (f : CardFactory C V)
    (type : String) (data : Dat) (options : Option (JSObject V))
    (h : f.registeredTypes.get type = some none) :
    f.isRegistered type = true
      ∧ f.create type data options
          = .error ("Unknown card type: " ++ type ++ ". Available types: "
              ++ ", ".intercalate f.registeredTypes.keys) := by
  constructor
  · unfold CardFactory.isRegistered
    rw [JSObject.has_eq_isSome_get, h]
    rfl
  · simp [CardFactory.create, h]

/-- C11 at the failing input: after
`CardFactory.register('ghost', undefined, { animate: true })` the call
`isRegistered('ghost')` answers `true`, yet `create('ghost', 7)` throws the
unknown-type `Error`, and its message lists `ghost` among the available types. -/
theorem CardFactory.create_registered_falsy_throws :
    ghostRegistered.isRegistered "ghost" = true
      ∧ ghostRegistered.create "ghost" (7 : Nat) none
          = .error ("Unknown card type: ghost. Available types: "
              ++ "hardware, program, shop, contract, character-stat, project, ghost") :=
  ⟨by decide, by rfl⟩

/-! ## The insertion index and the clamp of `splice` -/

/-- C12 as stated fails: dragging the last index onto itself with placement
after gives the adjusted index `3` on a three-element array, above the length
`2` of the reduced array, and `splice` cuts it back to `2`. -/
theorem adjustedTargetIndex_clamp_counterexample :
    adjustedTargetIndex 2 2 true = 3
      ∧ ¬ (adjustedTargetIndex 2 2 true
            ≤ (([some 'A', some 'B', some 'C'].length : Nat) : Int) - 1)
      ∧ actualStart ([some 'A', some 'B', some 'C'].length - 1)
          (adjustedTargetIndex 2 2 true) = 2 := by
  decide

/-- C12 amended: for valid indices the adjusted index lies between `0` and the
length `n - 1` of the reduced array, and the start normalisation of `splice`
leaves it unchanged, except when the last index is dragged onto itself with
placement after: then the adjusted index is `n` and `splice` cuts it back to
`n - 1`. -/
theorem adjustedTargetIndex_bounds (seq : List (Option α)) (s t : Int) (b : Bool)
    (hs0 : 0 ≤ s) (hs : s < seq.length) (ht0 : 0 ≤ t) (ht : t < seq.length) :
    0 ≤ adjustedTargetIndex s t b
      ∧ ((s ≠ t ∨ b = false ∨ s + 1 < seq.length) →
          adjustedTargetIndex s t b ≤ (seq.length : Int) - 1
            ∧ ((actualStart (seq.length - 1) (adjustedTargetIndex s t b) : Nat) : Int)
                = adjustedTargetIndex s t b)
      ∧ (s = t → b = true → s + 1 = seq.length →
          adjustedTargetIndex s t b = seq.length
            ∧ actualStart (seq.length - 1) (adjustedTargetIndex s t b) = seq.length - 1) := by
  have h0 := adjustedTargetIndex_nonneg s t b hs0 ht0
  refine ⟨h0, ?_, ?_⟩
  · intro hcase
    have hle : adjustedTargetIndex s t b ≤ (seq.length : Int) - 1 := by
      simp only [adjustedTargetIndex]
      split <;> split
      · omega
      · rename_i hb hlt
        rcases hcase with h | h | h
        · omega
        · simp [h] at hb
        · omega
      · omega
      · omega
    refine ⟨hle, ?_⟩
    rw [actualStart_of_nonneg _ _ h0]
    omega
  · intro hst hb hlast
    subst hst hb
    have hadj : adjustedTargetIndex s s true = s + 1 := by
      simp [adjustedTargetIndex]
    rw [hadj, hlast]
    refine ⟨rfl, ?_⟩
    rw [actualStart_natCast]
    omega

theorem adjustedTargetIndex_bounds_witness :
    0 ≤ adjustedTargetIndex 0 2 true
      ∧ (adjustedTargetIndex 0 2 true ≤ (([some 'A', some 'B', some 'C'].length : Nat) : Int) - 1
          ∧ ((actualStart ([some 'A', some 'B', some 'C'].length - 1)
                (adjustedTargetIndex 0 2 true) : Nat) : Int) = adjustedTargetIndex 0 2 true)
      ∧ (adjustedTargetIndex 2 2 true = (([some 'A', some 'B', some 'C'].length : Nat) : Int)
          ∧ actualStart ([some 'A', some 'B', some 'C'].length - 1)
              (adjustedTargetIndex 2 2 true) = [some 'A', some 'B', some 'C'].length - 1) :=
  ⟨(adjustedTargetIndex_bounds [some 'A', some 'B', some 'C'] 0 2 true
      (by decide) (by decide) (by decide) (by decide)).1,
   (adjustedTargetIndex_bounds [some 'A', some 'B', some 'C'] 0 2 true
      (by decide) (by decide) (by decide) (by decide)).2.1 (by decide),
   (adjustedTargetIndex_bounds [some 'A', some 'B', some 'C'] 2 2 true
      (by decide) (by decide) (by decide) (by decide)).2.2 (by decide) (by decide) (by decide)⟩

/-! ## The two copies of the routine -/

/-- C13: on every array and every pair of integer indices, the routine of
`debug_insert.js` returns the same array as `testInsertLogic` with
`insertAfter = false`. -/
theorem debug_insert_eq_testInsertLogic (arr : List (Option α)) (draggedIndex targetIndex : Int) :
    debug_insert arr draggedIndex targetIndex
      = testInsertLogic arr draggedIndex targetIndex false := by
  unfold debug_insert testInsertLogic adjustedTargetIndex
  by_cases h : draggedIndex < targetIndex
  · simp [h]
  · simp [h]

/-! ## Relations between moves -/

/-- C14: for distinct valid indices with `t + 1` below the length, dragging
`s` after `t` gives the same array as dragging `s` before `t + 1`. -/
theorem testInsertLogic_after_eq_before_succ (seq : List (Option α)) (s t : Int)
    (_hs0 : 0 ≤ s) (_hs : s < seq.length) (_ht0 : 0 ≤ t) (_ht : t + 1 < seq.length)
    (hne : s ≠ t) :
    testInsertLogic seq s t true = testInsertLogic seq s (t + 1) false := by
  have hadj : adjustedTargetIndex s t true = adjustedTargetIndex s (t + 1) false := by
    simp only [adjustedTargetIndex]
    split <;> split <;> simp_all <;> omega
  unfold testInsertLogic
  rw [hadj]

theorem testInsertLogic_after_eq_before_succ_witness :
    testInsertLogic [some 'A', some 'B', some 'C', some 'D', some 'E'] 0 2 true
      = testInsertLogic [some 'A', some 'B', some 'C', some 'D', some 'E'] 0 (2 + 1) false :=
  testInsertLogic_after_eq_before_succ [some 'A', some 'B', some 'C', some 'D', some 'E'] 0 2
    (by decide) (by decide) (by decide) (by decide) (by decide)

theorem adjustedTargetIndex_back (p s : Int) :
    adjustedTargetIndex p s (decide (p < s)) = s := by
  simp only [adjustedTargetIndex]
  by_cases h : p < s
  · simp [h]
  · simp [h]

/-- C15: for valid indices and either placement, with `p` the final index of
the dragged element, `min adjusted (length - 1)`, dragging `p` back to `s`
(after `s` when `p < s`, before `s` otherwise) returns the original array. -/
theorem testInsertLogic_undo (seq : List (Option α)) (s t : Int) (b : Bool)
    (hs0 : 0 ≤ s) (hs : s < seq.length) (ht0 : 0 ≤ t) (_ht : t < seq.length) :
    testInsertLogic (testInsertLogic seq s t b)
        (min (adjustedTargetIndex s t b) ((seq.length : Int) - 1)) s
        (decide (min (adjustedTargetIndex s t b) ((seq.length : Int) - 1) < s)) = seq := by
  obtain ⟨L, x, R, rfl, rfl⟩ := exists_split_at seq s hs0 hs
  have hadj := adjustedTargetIndex_nonneg (L.length : Int) t b hs0 ht0
  have hlen : (((L ++ x :: R).length : Nat) : Int) - 1 = (((L ++ R).length : Nat) : Int) := by
    simp only [List.length_append, List.length_cons]; push_cast; ring
  generalize hp : actualStart (L ++ R).length (adjustedTargetIndex (L.length : Int) t b) = p
  have hple : p ≤ (L ++ R).length := hp ▸ actualStart_le _ _
  have hmin : min (adjustedTargetIndex (L.length : Int) t b) (((L ++ R).length : Nat) : Int)
      = (p : Int) := by
    rw [← hp, actualStart_of_nonneg _ _ hadj]
    omega
  have hL' : ((L ++ R).take p).length = p := by
    rw [List.length_take]; omega
  rw [testInsertLogic_append, hlen, hmin, hp]
  have hback := testInsertLogic_append ((L ++ R).take p) ((L ++ R).drop p) x (L.length : Int)
    (decide ((p : Int) < (L.length : Int)))
  rw [hL', List.take_append_drop, adjustedTargetIndex_back, actualStart_natCast] at hback
  rw [hback]
  simp

theorem testInsertLogic_undo_witness :
    testInsertLogic (testInsertLogic [some 'A', some 'B', some 'C', some 'D'] 0 2 true)
        (min (adjustedTargetIndex 0 2 true)
          ((([some 'A', some 'B', some 'C', some 'D'].length : Nat) : Int) - 1)) 0
        (decide (min (adjustedTargetIndex 0 2 true)
          ((([some 'A', some 'B', some 'C', some 'D'].length : Nat) : Int) - 1) < 0))
      = [some 'A', some 'B', some 'C', some 'D'] :=
  testInsertLogic_undo [some 'A', some 'B', some 'C', some 'D'] 0 2 true
    (by decide) (by decide) (by decide) (by decide)

/-- The entry list `L ++ x :: y :: R` read, cut and dropped around the two
neighbours `x` and `y`. -/
theorem neighbours_split (L R : List (Option α)) (x y : Option α) :
    jsIndex (L ++ x :: y :: R) (L.length : Int) = x
      ∧ jsIndex (L ++ x :: y :: R) ((L.length : Int) + 1) = y
      ∧ (L ++ x :: y :: R).take L.length = L
      ∧ (L ++ x :: y :: R).drop (L.length + 2) = R := by
  refine ⟨jsIndex_append_length L (y :: R) x, ?_, ?_, ?_⟩
  · have := jsIndex_append_length (L ++ [x]) R y
    simpa using this
  · simp
  · have e : L.drop (L.length + 2) = [] := List.drop_eq_nil_of_le (by omega)
    simp [List.drop_append_eq_append_drop, e]

/-- C16: dragging index `i` after index `i + 1`, or index `i` before index
`i - 1`, exchanges the two neighbours and leaves every other position as it
was. -/
theorem testInsertLogic_swap (seq : List (Option α)) (i : Int) :
    (0 ≤ i → i + 1 < seq.length →
        testInsertLogic seq i (i + 1) true
          = seq.take i.toNat ++ jsIndex seq (i + 1) :: jsIndex seq i
              :: seq.drop (i.toNat + 2))
      ∧ (1 ≤ i → i < seq.length →
        testInsertLogic seq i (i - 1) false
          = seq.take (i - 1).toNat ++ jsIndex seq i :: jsIndex seq (i - 1)
              :: seq.drop ((i - 1).toNat + 2)) := by
  constructor
  · intro h0 h1
    obtain ⟨L, x, R, rfl, rfl⟩ := exists_split_at seq i h0 (by omega)
    cases R with
    | nil => simp at h1
    | cons y R' =>
      obtain ⟨e1, e2, e3, e4⟩ := neighbours_split L R' x y
      have hadj : adjustedTargetIndex (L.length : Int) ((L.length : Int) + 1) true
          = (L.length : Int) + 1 := by
        simp [adjustedTargetIndex]
      rw [testInsertLogic_append, hadj, actualStart_natCast_succ, e1, e2]
      simp only [Int.toNat_ofNat, e3, e4]
      have t1 : L.take (L.length + 1) = L := List.take_of_length_le (by omega)
      have t2 : L.drop (L.length + 1) = [] := List.drop_eq_nil_of_le (by omega)
      simp [List.take_append_eq_append_take, List.drop_append_eq_append_drop, t1, t2]
  · intro h0 h1
    obtain ⟨L, w, R, rfl, hL⟩ := exists_split_at seq (i - 1) (by omega) (by omega)
    have hi : i = (L.length : Int) + 1 := by omega
    subst hi
    cases R with
    | nil =>
      simp only [List.length_append, List.length_cons, List.length_nil] at h1
      omega
    | cons x R' =>
      obtain ⟨e1, e2, e3, e4⟩ := neighbours_split L R' w x
      have hsub : (L.length : Int) + 1 - 1 = (L.length : Int) := by omega
      have hlt : ¬ ((L.length : Int) + 1 < (L.length : Int)) := by omega
      have hadj : adjustedTargetIndex ((L.length : Int) + 1) (L.length : Int) false
          = (L.length : Int) := by
        simp [adjustedTargetIndex]
      have hnorm := testInsertLogic_append (L ++ [w]) R' x (L.length : Int) false
      simp only [List.length_append, List.length_cons, List.length_nil, List.append_assoc,
        List.singleton_append, Nat.cast_add, Nat.cast_one, zero_add] at hnorm
      rw [hsub, hnorm, hadj, actualStart_natCast, e1, e2]
      simp only [Int.toNat_ofNat, e3, e4]
      simp

theorem testInsertLogic_swap_witness :
    testInsertLogic [some 'A', some 'B', some 'C', some 'D'] 1 (1 + 1) true
        = [some 'A', some 'B', some 'C', some 'D'].take (1 : Int).toNat
            ++ jsIndex [some 'A', some 'B', some 'C', some 'D'] (1 + 1)
              :: jsIndex [some 'A', some 'B', some 'C', some 'D'] 1
              :: [some 'A', some 'B', some 'C', some 'D'].drop ((1 : Int).toNat + 2)
      ∧ testInsertLogic [some 'A', some 'B', some 'C', some 'D'] 1 (1 - 1) false
        = [some 'A', some 'B', some 'C', some 'D'].take ((1 : Int) - 1).toNat
            ++ jsIndex [some 'A', some 'B', some 'C', some 'D'] 1
              :: jsIndex [some 'A', some 'B', some 'C', some 'D'] (1 - 1)
              :: [some 'A', some 'B', some 'C', some 'D'].drop (((1 : Int) - 1).toNat + 2) :=
  ⟨(testInsertLogic_swap [some 'A', some 'B', some 'C', some 'D'] 1).1 (by decide) (by decide),
   (testInsertLogic_swap [some 'A', some 'B', some 'C', some 'D'] 1).2 (by decide) (by decide)⟩

/-! ## CardFactory: batches -/

/-- A callback that never throws is mapped over the whole array. -/
theorem arrayMap_ok {A B E : Type} (callback : A → Except E B) (g : A → B)
    (hg : ∀ a, callback a = .ok (g a)) (l : List A) :
    arrayMap callback l = .ok (l.map g) := by
  induction l with
  | nil => rfl
  | cons a rest ih => simp [arrayMap, hg, ih]

/-- The default of `options` is applied once: `create` sees the same options
whether it gets the argument or the defaulted object. -/
theorem CardFactory.create_defaulted {C Dat V : Type} (f : CardFactory C V) (type : String)
    (data : Dat) (options : Option (JSObject V)) :
    f.create type data (some (options.getD [])) = f.create type data options := by
  simp [CardFactory.create]

/-- C17 as stated fails: `ghost` is registered, with the value `undefined`, and
`createBatch('ghost', [1, 2])` throws the unknown-type `Error` and returns no
array. -/
theorem CardFactory.createBatch_registered_falsy_counterexample :
    ghostRegistered.isRegistered "ghost" = true
      ∧ ghostRegistered.createBatch "ghost" [(1 : Nat), 2] none
          = .error ("Unknown card type: ghost. Available types: "
              ++ "hardware, program, shop, contract, character-stat, project, ghost") :=
  ⟨by decide, by rfl⟩

/-- C17 amended: for a type registered with a card class `cls`, `createBatch`
returns an array of the length of `dataArray` whose entries are, in order, the
cards of class `cls` that `create` builds from the entries of `dataArray` with
the same options; on an empty `dataArray` it returns an empty array without
throwing, whether the type is registered or not. -/
theorem CardFactory.createBatch_length_order {C Dat V : Type} (f : CardFactory C V)
    (type : String) (cls : C) (dataArray : List Dat) (options : Option (JSObject V)) :
    (f.registeredTypes.get type = some (some cls) →
        ∃ cards : List (Card C Dat V),
          f.createBatch type dataArray options = .ok cards
            ∧ cards.length = dataArray.length
            ∧ cards.map (fun card => (Except.ok card : Except String (Card C Dat V)))
                = dataArray.map (fun data => f.create type data options)
            ∧ ∀ card ∈ cards, card.cardClass = cls)
      ∧ f.createBatch type ([] : List Dat) options = .ok [] := by
  refine ⟨?_, rfl⟩
  intro hC
  have hcreate := fun (data : Dat) (o : Option (JSObject V)) =>
    CardFactory.create_of_class f type cls data o hC
  refine ⟨dataArray.map (fun data => { cardClass := cls, data := data, options :=
      (copyDataProperties (copyDataProperties [] ((f.defaultOptions.get type).getD []))
        (options.getD [])) }), ?_, ?_, ?_, ?_⟩
  · unfold CardFactory.createBatch
    exact arrayMap_ok _ _ (fun data => by rw [CardFactory.create_defaulted, hcreate]) dataArray
  · simp
  · simp [hcreate]
  · intro card hcard
    obtain ⟨data, _, rfl⟩ := List.mem_map.mp hcard
    rfl

theorem CardFactory.createBatch_length_order_witness :
    (∃ cards : List (Card CardClass Nat Bool),
        registeredCards.createBatch "program" [3, 1, 2] (some [("draggable", false)])
            = .ok cards
          ∧ cards.length = [3, 1, 2].length
          ∧ cards.map (fun card => (Except.ok card : Except String (Card CardClass Nat Bool)))
              = [3, 1, 2].map (fun data =>
                  registeredCards.create "program" data (some [("draggable", false)]))
          ∧ ∀ card ∈ cards, card.cardClass = CardClass.ProgramCard)
      ∧ registeredCards.createBatch "weapon" ([] : List Nat) (some [("draggable", false)])
          = .ok [] :=
  ⟨(CardFactory.createBatch_length_order registeredCards "program" CardClass.ProgramCard
      [3, 1, 2] (some [("draggable", false)])).1 (by decide),
   (CardFactory.createBatch_length_order registeredCards "weapon" CardClass.ProgramCard
      ([] : List Nat) (some [("draggable", false)])).2⟩

end Decker
